import Mathlib

/-!
Verification development for the Plaid webhook / transaction-sync mirror
(`src/webhook.ts`, `src/worker.ts`, `src/db.ts`, `src/mockQueue.ts`).

The Mirror Store (PostgreSQL tables `items`, `transactions`, `sync_cursors`)
is embedded as association lists keyed by the primary-key column.  Each DB
method becomes a pure state transformer; `NOW()` is passed explicitly as a
`now : Nat` parameter; fallible remote calls are driven by explicit
outcome traces.
-/

namespace PlaidSync

/-- Association-list lookup by string key: returns the first binding, like a
lookup on a primary-key column. -/
def alookup {β : Type} : List (String × β) → String → Option β
  | [], _ => none
  | (k, v) :: rest, i => if k = i then some v else alookup rest i

/-- Overwrite every binding of key `k` with value `v` (an SQL
`UPDATE ... WHERE key = k`; with `k` a primary key at most one row matches). -/
def replaceAll {β : Type} (t : List (String × β)) (k : String) (v : β) : List (String × β) :=
  t.map fun p => if p.1 = k then (k, v) else p

/-- All bindings of key `k` in `t` agree with the first one (true of any
table reachable from an upsert, where the key is a primary key). -/
def uniqVal {β : Type} (k : String) (t : List (String × β)) : Prop :=
  ∀ p ∈ t, p.1 = k → alookup t k = some p.2

/-- Row of the `items` table (`db.ts` schema, lines 50-59): one Plaid
connection. -/
structure Item where
  item_id : String
  user_id : String
  access_token : String
  institution_id : Option String
  region : Option String
  status : String
  created_at : Nat
  updated_at : Nat
deriving DecidableEq, Repr

/-- Row of the `transactions` table (`db.ts` schema, lines 60-75).
`category` holds the JSONB payload as an opaque serialized string. -/
structure TxRow where
  item_id : String
  account_id : String
  amount : Int
  currency : String
  date : String
  name : String
  merchant_name : Option String
  pending : Bool
  category : Option String
  payment_channel : Option String
  deleted_at : Option Nat
  created_at : Nat
  updated_at : Nat
deriving DecidableEq, Repr

/-- An incoming transaction as built by the worker from a sync page
(`worker.ts` lines 51-63), after the `|| null` / `|| false` normalizations
applied there and in `db.ts` lines 222-227. -/
structure TxInput where
  transaction_id : String
  item_id : String
  account_id : String
  amount : Int
  currency : String
  date : String
  name : String
  merchant_name : Option String
  pending : Bool
  category : Option String
  payment_channel : Option String
deriving DecidableEq, Repr

/-- Row of the `sync_cursors` table (`db.ts` schema, lines 76-80). -/
structure CursorRow where
  next_cursor : String
  updated_at : Nat
deriving DecidableEq, Repr

/-- The Mirror Store: the three tables managed by the `DB` class, each an
association list keyed by its primary-key column. -/
structure Store where
  items : List (String × Item)
  transactions : List (String × TxRow)
  sync_cursors : List (String × CursorRow)
deriving DecidableEq, Repr

/-- `db.getItem` (`db.ts` lines 128-132): `SELECT * FROM items WHERE item_id = $1`. -/
def getItem (s : Store) (itemId : String) : Option Item :=
  alookup s.items itemId

/-- `db.updateItemStatus` (`db.ts` lines 143-146):
`UPDATE items SET status = $1, updated_at = NOW() WHERE item_id = $2`. -/
def updateItemStatus (itemId status : String) (now : Nat) (s : Store) : Store :=
  { s with items := s.items.map fun p =>
      if p.1 = itemId then (p.1, { p.2 with status := status, updated_at := now }) else p }

/-- The transactions-table row written for input `tx`: every mutable column
from the page, `deleted_at = NULL`, with the given bookkeeping timestamps
(`db.ts` lines 202-220). -/
def mkRow (tx : TxInput) (createdAt updatedAt : Nat) : TxRow :=
  { item_id := tx.item_id
    account_id := tx.account_id
    amount := tx.amount
    currency := tx.currency
    date := tx.date
    name := tx.name
    merchant_name := tx.merchant_name
    pending := tx.pending
    category := tx.category
    payment_channel := tx.payment_channel
    deleted_at := none
    created_at := createdAt
    updated_at := updatedAt }

/-- One `INSERT ... ON CONFLICT (transaction_id) DO UPDATE` statement of
`upsertTransactionsWithSoftDelete` (`db.ts` lines 202-220): insert a fresh
live row, or refresh every mutable field of the existing row, clear
`deleted_at`, keep `created_at`, and stamp `updated_at = NOW()`. -/
def upsertTx (now : Nat) (t : List (String × TxRow)) (tx : TxInput) : List (String × TxRow) :=
  match alookup t tx.transaction_id with
  | some old => replaceAll t tx.transaction_id (mkRow tx old.created_at now)
  | none => t ++ [(tx.transaction_id, mkRow tx now now)]

/-- The statements of one `upsertTransactionsWithSoftDelete` batch, executed
in list order on a single connection inside `BEGIN`/`COMMIT`
(`db.ts` lines 222-228). -/
def applyTxs (now : Nat) (t : List (String × TxRow)) (txs : List TxInput) : List (String × TxRow) :=
  txs.foldl (upsertTx now) t

/-- `db.upsertTransactionsWithSoftDelete` (`db.ts` lines 196-237): one atomic
batch of per-row upserts; the empty batch returns early and is a no-op. -/
def upsertTransactionsWithSoftDelete (txs : List TxInput) (now : Nat) (s : Store) : Store :=
  { s with transactions := applyTxs now s.transactions txs }

/-- `db.softDeleteTransactions` (`db.ts` lines 252-258):
`UPDATE transactions SET deleted_at = NOW(), updated_at = NOW()
WHERE transaction_id = ANY($1) AND deleted_at IS NULL`.  Matches on
`transaction_id` only; already-tombstoned rows are left untouched. -/
def softDeleteTransactions (ids : List String) (now : Nat) (s : Store) : Store :=
  { s with transactions := s.transactions.map fun p =>
      if p.1 ∈ ids ∧ p.2.deleted_at = none
      then (p.1, { p.2 with deleted_at := some now, updated_at := now })
      else p }

/-- `db.getCursor` (`db.ts` lines 288-291): the stored `next_cursor` for an
item, or `undefined` when the row is absent. -/
def getCursor (s : Store) (itemId : String) : Option String :=
  (alookup s.sync_cursors itemId).map fun r => r.next_cursor

/-- `db.saveCursor` (`db.ts` lines 302-307):
`INSERT INTO sync_cursors ... ON CONFLICT (item_id) DO UPDATE SET
next_cursor = EXCLUDED.next_cursor, updated_at = NOW()`. -/
def saveCursor (itemId cursor : String) (now : Nat) (s : Store) : Store :=
  match alookup s.sync_cursors itemId with
  | some _ => { s with sync_cursors := replaceAll s.sync_cursors itemId ⟨cursor, now⟩ }
  | none => { s with sync_cursors := s.sync_cursors ++ [(itemId, ⟨cursor, now⟩)] }

/-- One page of `plaidClient.transactionsSync` response data, as consumed by
the worker loop (`worker.ts` lines 42-79): the added/modified transactions
already normalized to `TxInput`, the removed ids, the new cursor, and the
`has_more` flag. -/
structure Page where
  added : List TxInput
  modified : List TxInput
  removed : List String
  next_cursor : String
  has_more : Bool
deriving DecidableEq, Repr

/-- Outcome of one iteration's remote call and store batches, an element of
the environment trace driving the sync loop: either the
`plaidClient.transactionsSync` call throws, or it returns a page together
with whether the upsert batch and the soft-delete batch throw. -/
inductive FetchResult where
  | fetchErr : FetchResult
  | page (p : Page) (upsertFails deleteFails : Bool) : FetchResult
deriving DecidableEq, Repr

/-- Store state after one fully applied page of the sync loop (`worker.ts`
lines 66-77): apply the upsert batch, then the soft-delete batch when the
removed list is non-empty, then persist the page's `next_cursor`. -/
def pageStore (itemId : String) (now : Nat) (p : Page) (s : Store) : Store :=
  saveCursor itemId p.next_cursor now
    (if p.removed ≠ [] then
      softDeleteTransactions p.removed now
        (upsertTransactionsWithSoftDelete (p.added ++ p.modified) now s)
    else upsertTransactionsWithSoftDelete (p.added ++ p.modified) now s)

/-- The `while (hasMore)` loop of `handleTransactionSync` (`worker.ts`
lines 40-80), driven by the outcome trace.  Any throw — from the sync call,
the upsert batch, or the soft-delete batch — propagates and terminates the
invocation with the store as committed so far; an empty batch returns early
in `db.ts` before touching the pool and therefore cannot throw.  The cursor
is persisted only after both batches of the page succeeded. -/
def syncLoop (itemId : String) (now : Nat) : List FetchResult → Store → Store
  | [], s => s
  | .fetchErr :: _, s => s
  | .page p uF dF :: rest, s =>
    if (p.added ++ p.modified) ≠ [] ∧ uF = true then s
    else if p.removed ≠ [] ∧ dF = true then
      upsertTransactionsWithSoftDelete (p.added ++ p.modified) now s
    else if p.has_more then syncLoop itemId now rest (pageStore itemId now p s)
    else pageStore itemId now p s

/-- `handleTransactionSync` (`worker.ts` lines 24-83): look the item up; if
absent return early without touching the store; otherwise run the cursor
paging loop. -/
def handleTransactionSync (itemId : String) (now : Nat) (trace : List FetchResult) (s : Store) : Store :=
  match getItem s itemId with
  | none => s
  | some _ => syncLoop itemId now trace s

/-- One account object returned by `plaidClient.accountsGet`
(`worker.ts` lines 101-106). -/
structure PlaidAccount where
  account_id : String
  name : String
deriving DecidableEq, Repr

/-- The filtering step of `handleAddNewAccounts` (`worker.ts` lines 108-113),
returning the list of accounts the worker then processes (its remaining
effect is logging only): start from all fetched accounts and filter by the
webhook's `account_ids` only when that list is present and non-empty. -/
def handleAddNewAccounts (allAccounts : List PlaidAccount) (account_ids : Option (List String)) : List PlaidAccount :=
  match account_ids with
  | some ids =>
    if ids.length > 0 then allAccounts.filter (fun a => decide (a.account_id ∈ ids))
    else allAccounts
  | none => allAccounts

/-- Parsed webhook body (`types.ts` `PlaidWebhookBody`): the mandatory typed
fields plus the optional payload lists read by the handlers. -/
structure WebhookPayload where
  webhook_type : String
  webhook_code : String
  item_id : String
  removed_transactions : Option (List String)
  new_accounts : Option (List String)
deriving DecidableEq, Repr

/-- The inbound HTTP body as seen by the handler: absent, present but not
parseable as JSON (so `JSON.parse` throws), or parsed. -/
inductive RequestBody where
  | missing : RequestBody
  | malformed : RequestBody
  | ok (p : WebhookPayload) : RequestBody
deriving DecidableEq, Repr

/-- A message sent to `backgroundQueue.sendMessage` (`types.ts`
`QueueMessage`). -/
structure QueueMessage where
  type : String
  item_id : String
  account_ids : Option (List String)
deriving DecidableEq, Repr

/-- The JSON body of the webhook acknowledgment, with each optional field
`none` when the corresponding branch does not emit it. -/
structure ResponseBody where
  received : Option Bool
  processed : Option Bool
  error : Option String
  action : Option String
deriving DecidableEq, Repr

/-- HTTP response returned by the webhook handler. -/
structure WebhookResponse where
  statusCode : Nat
  body : ResponseBody
deriving DecidableEq, Repr

/-- The `action` string computed for the acknowledgment body by
`handleWebhook` (`db.ts` lines 381-396). -/
def computeAction (p : WebhookPayload) : String :=
  if p.webhook_type = "TRANSACTIONS" then
    if p.webhook_code = "SYNC_UPDATES_AVAILABLE" ∨ p.webhook_code = "DEFAULT_UPDATE" ∨
        p.webhook_code = "INITIAL_UPDATE" then "trigger_transaction_sync"
    else if p.webhook_code = "TRANSACTIONS_REMOVED" then
      "soft_delete_" ++ toString (p.removed_transactions.getD []).length ++ "_transactions"
    else "unknown"
  else if p.webhook_type = "ITEM" then
    if p.webhook_code = "LOGIN_REQUIRED" then "update_item_status_to_login_required"
    else if p.webhook_code = "NEW_ACCOUNTS_AVAILABLE" then
      "process_" ++ toString (p.new_accounts.getD []).length ++ "_new_accounts"
    else if p.webhook_code = "ERROR" then "handle_item_error"
    else "unknown"
  else "unknown"

/-- `handleTransactionsWebhook` (`db.ts` lines 472-488): the sync-available
codes enqueue a `SYNC_TRANSACTIONS` job; `TRANSACTIONS_REMOVED` soft-deletes
the listed ids directly (skipping the call when the list is empty) and
enqueues nothing; other codes are logged only.  Returns the store after the
synchronous mutations together with the enqueued messages. -/
def handleTransactionsWebhook (code itemId : String) (p : WebhookPayload) (now : Nat) (s : Store) :
    Store × List QueueMessage :=
  if code = "SYNC_UPDATES_AVAILABLE" ∨ code = "DEFAULT_UPDATE" ∨ code = "INITIAL_UPDATE" then
    (s, [⟨"SYNC_TRANSACTIONS", itemId, none⟩])
  else if code = "TRANSACTIONS_REMOVED" then
    let removedIds := p.removed_transactions.getD []
    (if removedIds ≠ [] then softDeleteTransactions removedIds now s else s, [])
  else (s, [])

/-- `handleItemWebhook` (`db.ts` lines 504-524): `LOGIN_REQUIRED` and
`ERROR` flip the item's status to `login_required`; `NEW_ACCOUNTS_AVAILABLE`
enqueues an `ADD_NEW_ACCOUNTS` job when the id list is non-empty; other
codes are logged only. -/
def handleItemWebhook (code itemId : String) (p : WebhookPayload) (now : Nat) (s : Store) :
    Store × List QueueMessage :=
  if code = "LOGIN_REQUIRED" then (updateItemStatus itemId "login_required" now s, [])
  else if code = "NEW_ACCOUNTS_AVAILABLE" then
    let ids := p.new_accounts.getD []
    (s, if ids ≠ [] then [⟨"ADD_NEW_ACCOUNTS", itemId, some ids⟩] else [])
  else if code = "ERROR" then (updateItemStatus itemId "login_required" now s, [])
  else (s, [])

/-- `processWebhookAsync` (`db.ts` lines 437-459): re-resolve the item
(returning with no action when absent, which cannot happen when the caller
already found it) and dispatch on the webhook type. -/
def processWebhookAsync (p : WebhookPayload) (now : Nat) (s : Store) : Store × List QueueMessage :=
  match getItem s p.item_id with
  | none => (s, [])
  | some _ =>
    if p.webhook_type = "TRANSACTIONS" then
      handleTransactionsWebhook p.webhook_code p.item_id p now s
    else if p.webhook_type = "ITEM" then
      handleItemWebhook p.webhook_code p.item_id p now s
    else (s, [])

/-- `handleWebhook` (the full webhook-handler revision embedded in
`src/db.ts`, lines 353-426, whose behavior the two later revisions in that
file share): a missing body is rejected with status 400; a body on which
`JSON.parse` throws lands in the catch-all, which still acknowledges with
status 200 and `processed = false`; an unknown `item_id` is acknowledged
with status 200 and `processed = false` with no further action; otherwise
the acknowledgment carries the computed action and the payload is handed to
`processWebhookAsync`.  Returns the response, the resulting store, and the
enqueued messages. -/
def handleWebhook (body : RequestBody) (now : Nat) (s : Store) :
    WebhookResponse × Store × List QueueMessage :=
  match body with
  | .missing =>
    (⟨400, ⟨none, none, some "Missing request body", none⟩⟩, s, [])
  | .malformed =>
    (⟨200, ⟨some true, some false, some "Unexpected token in JSON", none⟩⟩, s, [])
  | .ok p =>
    match getItem s p.item_id with
    | none =>
      (⟨200, ⟨some true, some false, some ("Item " ++ p.item_id ++ " not found"), none⟩⟩, s, [])
    | some _ =>
      let out := processWebhookAsync p now s
      (⟨200, ⟨some true, some true, none, some (computeAction p)⟩⟩, out.1, out.2)

/-- Program counter of one in-flight `handleTransactionSync` invocation.
Each constructor is the code point just before one `await` — the suspension
points at which Node's event loop can interleave another invocation
(`worker.ts` lines 30, 37, 42, 66, 71, 77; the jobs are fired by
independent `setTimeout` callbacks in `mockQueue.ts` lines 29-39 with no
per-item mutual exclusion). -/
inductive PC where
  | chkItem : PC
  | rdCursor : PC
  | doFetch : PC
  | doUpsert : PC
  | doDelete : PC
  | doSave : PC
  | halted : PC
deriving DecidableEq, Repr

/-- Local state of one in-flight invocation: program counter, the local
`cursor` variable, and the fetched page being applied. -/
structure ProcState where
  pc : PC
  cur : Option String
  pg : Option Page
deriving DecidableEq, Repr

/-- One atomic step of an in-flight `handleTransactionSync` invocation, with
`oracle` standing for `plaidClient.transactionsSync` as a function of the
cursor argument.  Mirrors `worker.ts` lines 24-83 statement by statement. -/
def procStep (oracle : Option String → Page) (itemId : String) (now : Nat)
    (ps : ProcState) (s : Store) : ProcState × Store :=
  match ps.pc with
  | .chkItem => (⟨if (getItem s itemId).isSome then .rdCursor else .halted, ps.cur, ps.pg⟩, s)
  | .rdCursor => (⟨.doFetch, getCursor s itemId, ps.pg⟩, s)
  | .doFetch => (⟨.doUpsert, ps.cur, some (oracle ps.cur)⟩, s)
  | .doUpsert =>
    match ps.pg with
    | some p => (⟨.doDelete, ps.cur, ps.pg⟩,
        upsertTransactionsWithSoftDelete (p.added ++ p.modified) now s)
    | none => (⟨.halted, ps.cur, ps.pg⟩, s)
  | .doDelete =>
    match ps.pg with
    | some p => (⟨.doSave, ps.cur, ps.pg⟩,
        if p.removed ≠ [] then softDeleteTransactions p.removed now s else s)
    | none => (⟨.halted, ps.cur, ps.pg⟩, s)
  | .doSave =>
    match ps.pg with
    | some p => (⟨if p.has_more then .doFetch else .halted, some p.next_cursor, none⟩,
        saveCursor itemId p.next_cursor now s)
    | none => (⟨.halted, ps.cur, ps.pg⟩, s)
  | .halted => (ps, s)

/-- Shared store plus the local states of two concurrently dispatched
`SYNC_TRANSACTIONS` jobs for the same item. -/
structure Sys where
  st : Store
  proc1 : ProcState
  proc2 : ProcState
deriving DecidableEq, Repr

/-- Run one scheduler choice: `false` steps the first invocation, `true`
the second. -/
def sysStep (oracle : Option String → Page) (itemId : String) (now : Nat)
    (sys : Sys) (choose2 : Bool) : Sys :=
  if choose2 then
    let r := procStep oracle itemId now sys.proc2 sys.st
    ⟨r.2, sys.proc1, r.1⟩
  else
    let r := procStep oracle itemId now sys.proc1 sys.st
    ⟨r.2, r.1, sys.proc2⟩

/-- Run a whole interleaving schedule. -/
def runSched (oracle : Option String → Page) (itemId : String) (now : Nat)
    (sched : List Bool) (sys : Sys) : Sys :=
  sched.foldl (sysStep oracle itemId now) sys

/-- Specification of claim C1, derived from the worker loop's failure
points: the cursor value the store should hold after the run — the
`next_cursor` of the last page whose upsert batch and soft-delete batch
both completed (a batch that is skipped because its input is empty cannot
fail), or the starting value when no page was fully applied. -/
def appliedCursor : Option String → List FetchResult → Option String
  | c, [] => c
  | c, .fetchErr :: _ => c
  | c, .page p uF dF :: rest =>
    if (p.added ++ p.modified) ≠ [] ∧ uF = true then c
    else if p.removed ≠ [] ∧ dF = true then c
    else if p.has_more then appliedCursor (some p.next_cursor) rest
    else some p.next_cursor

/-- Demo item used by concrete witnesses. -/
def itemI : Item :=
  ⟨"I", "user_1", "access-token-I", none, none, "active", 0, 0⟩

/-- Demo incoming transaction `tA`. -/
def txA : TxInput :=
  ⟨"tA", "I", "acc_1", 500, "USD", "2024-01-01", "Coffee", none, false, none, none⟩

/-- Demo incoming transaction `tB`. -/
def txB : TxInput :=
  ⟨"tB", "I", "acc_1", 1200, "USD", "2024-01-02", "Books", some "Store", false, none, none⟩

/-- First sync page of the concurrency scenario: adds `tA`, advances the
cursor to `c1`, no further pages. -/
def pageA : Page := ⟨[txA], [], [], "c1", false⟩

/-- Second sync page of the concurrency scenario: served at cursor `c1`,
adds `tB`, advances the cursor to `c2`. -/
def pageB : Page := ⟨[txB], [], [], "c2", false⟩

/-- Sync endpoint of the concurrency scenario: the initial fetch yields
`pageA`, a fetch at `c1` yields `pageB`, anything later is empty. -/
def demoOracle : Option String → Page
  | none => pageA
  | some c => if c = "c1" then pageB else ⟨[], [], [], c, false⟩

/-- Starting store of the concurrency scenario: item `I` with no
transactions and no cursor row. -/
def store0 : Store := ⟨[("I", itemI)], [], []⟩

/-- Initial local state of an invocation. -/
def proc0 : ProcState := ⟨.chkItem, none, none⟩

/-- Initial system: two `SYNC_TRANSACTIONS` jobs for item `I` about to run. -/
def sys0 : Sys := ⟨store0, proc0, proc0⟩

/-- Schedule running the first invocation to completion, then the second. -/
def schedSeq12 : List Bool := List.replicate 6 false ++ List.replicate 6 true

/-- Schedule running the second invocation to completion, then the first. -/
def schedSeq21 : List Bool := List.replicate 6 true ++ List.replicate 6 false

/-- Interleaved schedule: both invocations read the stored cursor before
either has saved, then each applies and saves in turn. -/
def schedBad : List Bool :=
  [false, false, true, true, false, false, false, false, true, true, true, true]

/-- Demo stored row owned by a different item (`J`), currently live. -/
def rowLiveJ : TxRow :=
  ⟨"J", "acc_9", 100, "USD", "2024-02-01", "Other item row", none, false, none, none, none, 1, 1⟩

/-- Demo stored row for item `I`, already tombstoned at time 3. -/
def rowDead : TxRow :=
  ⟨"I", "acc_1", 250, "USD", "2024-01-05", "Stale", none, false, none, none, some 3, 1, 3⟩

/-- Demo stored row for item `I`, currently live. -/
def rowLive : TxRow :=
  ⟨"I", "acc_1", 75, "EUR", "2024-03-01", "Live", none, true, none, none, none, 2, 2⟩

/-- Demo store for the tombstone-reversal witness: the incoming page's
`transaction_id` is present but tombstoned. -/
def store3 : Store := ⟨[("I", itemI)], [("tA", rowDead)], []⟩

/-- Demo store for the removal-webhook witness. -/
def store5 : Store := ⟨[("I", itemI)], [("tA", rowLive)], []⟩

/-- Demo store for the soft-delete witness: a live row owned by another
item, a tombstoned row, and a live row that is not listed. -/
def store10 : Store :=
  ⟨[("I", itemI)], [("tA", rowLiveJ), ("tB", rowDead), ("tC", rowLive)], []⟩

/-- Demo payload referencing an item id absent from the store. -/
def payloadX : WebhookPayload :=
  ⟨"TRANSACTIONS", "SYNC_UPDATES_AVAILABLE", "X", none, none⟩

/-- Demo `TRANSACTIONS_REMOVED` payload listing one transaction id. -/
def payloadRemoved : WebhookPayload :=
  ⟨"TRANSACTIONS", "TRANSACTIONS_REMOVED", "I", some ["tA"], none⟩

theorem alookup_cons {β : Type} (a : String) (b : β) (rest : List (String × β)) (k : String) :
    alookup ((a, b) :: rest) k = if a = k then some b else alookup rest k := rfl

theorem replaceAll_cons {β : Type} (a : String) (b : β) (rest : List (String × β))
    (k : String) (v : β) :
    replaceAll ((a, b) :: rest) k v = (if a = k then (k, v) else (a, b)) :: replaceAll rest k v := rfl

theorem alookup_append_of_none {β : Type} {t₁ : List (String × β)} (t₂ : List (String × β))
    {k : String} (h : alookup t₁ k = none) : alookup (t₁ ++ t₂) k = alookup t₂ k := by
  induction t₁ with
  | nil => rfl
  | cons p rest ih =>
    obtain ⟨a, b⟩ := p
    rw [alookup_cons] at h
    by_cases ha : a = k
    · rw [if_pos ha] at h; exact absurd h (by simp)
    · rw [if_neg ha] at h
      rw [List.cons_append, alookup_cons, if_neg ha]
      exact ih h

theorem alookup_append_of_some {β : Type} {t₁ : List (String × β)} (t₂ : List (String × β))
    {k : String} {v : β} (h : alookup t₁ k = some v) : alookup (t₁ ++ t₂) k = some v := by
  induction t₁ with
  | nil => simp [alookup] at h
  | cons p rest ih =>
    obtain ⟨a, b⟩ := p
    rw [alookup_cons] at h
    rw [List.cons_append, alookup_cons]
    by_cases ha : a = k
    · rwa [if_pos ha] at h ⊢
    · rw [if_neg ha] at h
      rw [if_neg ha]
      exact ih h

theorem alookup_replaceAll_self {β : Type} {t : List (String × β)} {k : String}
    (v : β) (h : (alookup t k).isSome) : alookup (replaceAll t k v) k = some v := by
  induction t with
  | nil => simp [alookup] at h
  | cons p rest ih =>
    obtain ⟨a, b⟩ := p
    rw [alookup_cons] at h
    rw [replaceAll_cons]
    by_cases ha : a = k
    · rw [if_pos ha, alookup_cons, if_pos rfl]
    · rw [if_neg ha] at h
      rw [if_neg ha, alookup_cons, if_neg ha]
      exact ih h

theorem alookup_replaceAll_ne {β : Type} {t : List (String × β)} {k j : String}
    (v : β) (h : j ≠ k) : alookup (replaceAll t k v) j = alookup t j := by
  induction t with
  | nil => rfl
  | cons p rest ih =>
    obtain ⟨a, b⟩ := p
    rw [replaceAll_cons, alookup_cons]
    by_cases ha : a = k
    · have hkj : ¬(k = j) := fun hkj => h hkj.symm
      have haj : ¬(a = j) := by rw [ha]; exact hkj
      rw [if_pos ha, alookup_cons, if_neg hkj, if_neg haj, ih]
    · rw [if_neg ha]
      by_cases haj : a = j
      · rw [alookup_cons, if_pos haj, if_pos haj]
      · rw [alookup_cons, if_neg haj, if_neg haj, ih]

theorem replaceAll_append {β : Type} (t₁ t₂ : List (String × β)) (k : String) (v : β) :
    replaceAll (t₁ ++ t₂) k v = replaceAll t₁ k v ++ replaceAll t₂ k v := by
  simp [replaceAll]

theorem replaceAll_replaceAll_self {β : Type} (t : List (String × β)) (k : String) (x v : β) :
    replaceAll (replaceAll t k x) k v = replaceAll t k v := by
  simp only [replaceAll, List.map_map]
  refine List.map_congr_left fun p _ => ?_
  obtain ⟨a, b⟩ := p
  by_cases ha : a = k <;> simp [ha]

theorem replaceAll_comm {β : Type} (t : List (String × β)) {k j : String} (x v : β)
    (h : k ≠ j) : replaceAll (replaceAll t k x) j v = replaceAll (replaceAll t j v) k x := by
  have hjk : ¬(j = k) := fun hj => h hj.symm
  simp only [replaceAll, List.map_map]
  refine List.map_congr_left fun p _ => ?_
  obtain ⟨a, b⟩ := p
  by_cases ha : a = k
  · have haj : ¬(a = j) := by rw [ha]; exact fun hh => hjk hh.symm
    simp [ha, haj, hjk, h]
  · by_cases haj : a = j <;> simp [ha, haj, hjk, h]

theorem replaceAll_eq_self {β : Type} {t : List (String × β)} {k : String} {v : β}
    (h : ∀ p ∈ t, p.1 = k → p.2 = v) : replaceAll t k v = t := by
  induction t with
  | nil => rfl
  | cons p rest ih =>
    obtain ⟨a, b⟩ := p
    have hrest := ih fun q hq hq1 => h q (List.mem_cons_of_mem _ hq) hq1
    by_cases ha : a = k
    · have hv := h (a, b) (List.mem_cons_self _ rest) ha
      simp only at hv
      simp [replaceAll, ha, hv.symm] at hrest ⊢
      exact hrest
    · simp [replaceAll, ha] at hrest ⊢
      exact hrest

theorem alookup_eq_none_iff {β : Type} {t : List (String × β)} {k : String} :
    alookup t k = none ↔ ∀ p ∈ t, p.1 ≠ k := by
  induction t with
  | nil => simp [alookup]
  | cons p rest ih =>
    simp only [alookup]
    by_cases hk : p.1 = k
    · simp [hk]
    · simp [hk, ih]

theorem mem_replaceAll {β : Type} {t : List (String × β)} {k : String} {v : β}
    {p : String × β} (h : p ∈ replaceAll t k v) :
    (p.1 = k → p = (k, v)) ∧ (p.1 ≠ k → p ∈ t) := by
  rcases List.mem_map.1 h with ⟨q, hq, hfq⟩
  by_cases hqk : q.1 = k
  · constructor
    · intro _; simp [hqk] at hfq; exact hfq.symm
    · intro hpk; exfalso; apply hpk; simp [hqk] at hfq; rw [← hfq]
  · constructor
    · intro hpk; exfalso; simp [hqk] at hfq; rw [← hfq] at hpk; exact hqk hpk
    · intro _; simp [hqk] at hfq; rwa [← hfq]

theorem mkRow_created_at (tx : TxInput) (c u : Nat) : (mkRow tx c u).created_at = c := rfl

theorem alookup_upsertTx_self (now : Nat) (t : List (String × TxRow)) (tx : TxInput) :
    ∃ c, alookup (upsertTx now t tx) tx.transaction_id = some (mkRow tx c now) := by
  unfold upsertTx
  cases h : alookup t tx.transaction_id with
  | some old =>
    exact ⟨old.created_at, alookup_replaceAll_self _ (by rw [h]; rfl)⟩
  | none =>
    refine ⟨now, ?_⟩
    rw [alookup_append_of_none _ h, alookup_cons, if_pos rfl]

theorem alookup_upsertTx_ne (now : Nat) (t : List (String × TxRow)) (tx : TxInput)
    {k : String} (h : k ≠ tx.transaction_id) :
    alookup (upsertTx now t tx) k = alookup t k := by
  unfold upsertTx
  cases ht : alookup t tx.transaction_id with
  | some old => exact alookup_replaceAll_ne _ h
  | none =>
    cases hk : alookup t k with
    | some v => exact alookup_append_of_some _ hk
    | none =>
      rw [alookup_append_of_none _ hk, alookup_cons,
        if_neg (fun he => h he.symm)]
      rfl

theorem uniqVal_upsertTx_self (now : Nat) (t : List (String × TxRow)) (tx : TxInput) :
    uniqVal tx.transaction_id (upsertTx now t tx) := by
  unfold upsertTx
  cases h : alookup t tx.transaction_id with
  | some old =>
    intro p hp hp1
    have hm := (mem_replaceAll hp).1 hp1
    rw [alookup_replaceAll_self _ (by rw [h]; rfl), hm]
  | none =>
    intro p hp hp1
    rcases List.mem_append.1 hp with hpt | hps
    · exact absurd hp1 (alookup_eq_none_iff.1 h p hpt)
    · have : p = (tx.transaction_id, mkRow tx now now) := by simpa using hps
      rw [this, alookup_append_of_none _ h, alookup_cons, if_pos rfl]

theorem uniqVal_upsertTx (now : Nat) (t : List (String × TxRow)) (tx : TxInput)
    (k : String) (h : uniqVal k t) : uniqVal k (upsertTx now t tx) := by
  by_cases hk : k = tx.transaction_id
  · rw [hk]; exact uniqVal_upsertTx_self now t tx
  · intro p hp hp1
    rw [alookup_upsertTx_ne now t tx hk]
    unfold upsertTx at hp
    cases ht : alookup t tx.transaction_id with
    | some old =>
      rw [ht] at hp
      have hm := (mem_replaceAll hp).2 (by rw [hp1]; exact hk)
      exact h p hm hp1
    | none =>
      rw [ht] at hp
      rcases List.mem_append.1 hp with hpt | hps
      · exact h p hpt hp1
      · have : p = (tx.transaction_id, mkRow tx now now) := by simpa using hps
        rw [this] at hp1
        exact absurd hp1.symm hk

theorem uniqVal_applyTxs (now : Nat) (txs : List TxInput) :
    ∀ (t : List (String × TxRow)) (k : String), uniqVal k t → uniqVal k (applyTxs now t txs) := by
  induction txs with
  | nil => intro t k h; exact h
  | cons tx rest ih =>
    intro t k h
    exact ih (upsertTx now t tx) k (uniqVal_upsertTx now t tx k h)

theorem alookup_applyTxs_noWrite (now : Nat) (txs : List TxInput) :
    ∀ (t : List (String × TxRow)) (k : String),
      (∀ tx' ∈ txs, tx'.transaction_id ≠ k) →
      alookup (applyTxs now t txs) k = alookup t k := by
  induction txs with
  | nil => intro t k _; rfl
  | cons tx rest ih =>
    intro t k h
    have h1 : tx.transaction_id ≠ k := h tx (List.mem_cons_self _ _)
    have := ih (upsertTx now t tx) k (fun tx' h' => h tx' (List.mem_cons_of_mem _ h'))
    rw [applyTxs, List.foldl_cons, ← applyTxs, this,
      alookup_upsertTx_ne now t tx (fun he => h1 he.symm)]

theorem alookup_applyTxs_isSome (now : Nat) (txs : List TxInput) :
    ∀ (t : List (String × TxRow)) (k : String),
      (alookup t k).isSome → (alookup (applyTxs now t txs) k).isSome := by
  induction txs with
  | nil => intro t k h; exact h
  | cons tx rest ih =>
    intro t k h
    rw [applyTxs, List.foldl_cons, ← applyTxs]
    refine ih (upsertTx now t tx) k ?_
    by_cases hk : k = tx.transaction_id
    · rw [hk]
      obtain ⟨c, hc⟩ := alookup_upsertTx_self now t tx
      rw [hc]; rfl
    · rw [alookup_upsertTx_ne now t tx hk]; exact h

theorem upsertTx_eq_some {now : Nat} {t : List (String × TxRow)} {tx : TxInput} {old : TxRow}
    (h : alookup t tx.transaction_id = some old) :
    upsertTx now t tx = replaceAll t tx.transaction_id (mkRow tx old.created_at now) := by
  unfold upsertTx; rw [h]

theorem upsertTx_eq_none {now : Nat} {t : List (String × TxRow)} {tx : TxInput}
    (h : alookup t tx.transaction_id = none) :
    upsertTx now t tx = t ++ [(tx.transaction_id, mkRow tx now now)] := by
  unfold upsertTx; rw [h]

theorem applyTxs_cons (now : Nat) (t : List (String × TxRow)) (tx : TxInput)
    (rest : List TxInput) :
    applyTxs now t (tx :: rest) = applyTxs now (upsertTx now t tx) rest := rfl

theorem applyTxs_absorb (now : Nat) (tx : TxInput) :
    ∀ (rest : List TxInput) (A : List (String × TxRow)) (w : TxRow),
      alookup A tx.transaction_id = some w →
      uniqVal tx.transaction_id A →
      ((∀ tx' ∈ rest, tx'.transaction_id ≠ tx.transaction_id) → w = mkRow tx w.created_at now) →
      applyTxs now (upsertTx now A tx) rest = applyTxs now A rest := by
  intro rest
  induction rest with
  | nil =>
    intro A w hw huniq hagree
    have hag := hagree (by intro tx' h'; exact absurd h' (List.not_mem_nil _))
    show upsertTx now A tx = A
    rw [upsertTx_eq_some hw, ← hag]
    exact replaceAll_eq_self (fun p hp hp1 => by
      have hu := huniq p hp hp1
      rw [hw] at hu
      exact (Option.some_inj.1 hu).symm)
  | cons tx' rs ih =>
    intro A w hw huniq hagree
    rw [applyTxs_cons, applyTxs_cons]
    have hA' : upsertTx now A tx
        = replaceAll A tx.transaction_id (mkRow tx w.created_at now) :=
      upsertTx_eq_some hw
    by_cases hid : tx'.transaction_id = tx.transaction_id
    · have h1 : alookup (upsertTx now A tx) tx'.transaction_id
          = some (mkRow tx w.created_at now) := by
        rw [hid, hA']
        exact alookup_replaceAll_self _ (by rw [hw]; rfl)
      have e1 : upsertTx now (upsertTx now A tx) tx'
          = replaceAll (upsertTx now A tx) tx'.transaction_id
              (mkRow tx' (mkRow tx w.created_at now).created_at now) :=
        upsertTx_eq_some h1
      have e2 : upsertTx now A tx'
          = replaceAll A tx'.transaction_id (mkRow tx' w.created_at now) := by
        have : alookup A tx'.transaction_id = some w := by rw [hid]; exact hw
        exact upsertTx_eq_some this
      rw [e1, hA', mkRow_created_at, hid, replaceAll_replaceAll_self, e2, hid]
    · have hne : tx.transaction_id ≠ tx'.transaction_id := fun he => hid he.symm
      have hlk : alookup (upsertTx now A tx) tx'.transaction_id
          = alookup A tx'.transaction_id := by
        rw [hA']; exact alookup_replaceAll_ne _ hid
      have hprop : (∀ q ∈ rs, q.transaction_id ≠ tx.transaction_id) →
          w = mkRow tx w.created_at now := fun hnw => hagree (by
        intro q hq
        rcases List.mem_cons.1 hq with h1 | h2
        · rw [h1]; exact hid
        · exact hnw q h2)
      cases hsome : alookup A tx'.transaction_id with
      | some old =>
        have e1 : upsertTx now (upsertTx now A tx) tx'
            = replaceAll (upsertTx now A tx) tx'.transaction_id (mkRow tx' old.created_at now) :=
          upsertTx_eq_some (by rw [hlk]; exact hsome)
        have e2 : upsertTx now A tx'
            = replaceAll A tx'.transaction_id (mkRow tx' old.created_at now) :=
          upsertTx_eq_some hsome
        have hwB : alookup (upsertTx now A tx') tx.transaction_id = some w := by
          rw [e2, alookup_replaceAll_ne _ hne]; exact hw
        have huB : uniqVal tx.transaction_id (upsertTx now A tx') :=
          uniqVal_upsertTx now A tx' _ huniq
        have key : upsertTx now (upsertTx now A tx') tx
            = replaceAll (upsertTx now A tx') tx.transaction_id (mkRow tx w.created_at now) :=
          upsertTx_eq_some hwB
        have comm : replaceAll (replaceAll A tx.transaction_id (mkRow tx w.created_at now))
              tx'.transaction_id (mkRow tx' old.created_at now)
            = replaceAll (upsertTx now A tx') tx.transaction_id (mkRow tx w.created_at now) := by
          rw [e2]; exact replaceAll_comm A _ _ hne
        rw [e1, hA', comm, ← key]
        exact ih (upsertTx now A tx') w hwB huB hprop
      | none =>
        have e1 : upsertTx now (upsertTx now A tx) tx'
            = upsertTx now A tx ++ [(tx'.transaction_id, mkRow tx' now now)] :=
          upsertTx_eq_none (by rw [hlk]; exact hsome)
        have e2 : upsertTx now A tx'
            = A ++ [(tx'.transaction_id, mkRow tx' now now)] :=
          upsertTx_eq_none hsome
        have hwB : alookup (upsertTx now A tx') tx.transaction_id = some w := by
          rw [e2]; exact alookup_append_of_some _ hw
        have huB : uniqVal tx.transaction_id (upsertTx now A tx') :=
          uniqVal_upsertTx now A tx' _ huniq
        have key : upsertTx now (upsertTx now A tx') tx
            = replaceAll (upsertTx now A tx') tx.transaction_id (mkRow tx w.created_at now) :=
          upsertTx_eq_some hwB
        have hsplit : replaceAll (upsertTx now A tx') tx.transaction_id (mkRow tx w.created_at now)
            = replaceAll A tx.transaction_id (mkRow tx w.created_at now)
              ++ [(tx'.transaction_id, mkRow tx' now now)] := by
          rw [e2, replaceAll_append]
          congr 1
          simp [replaceAll, hid]
        rw [e1, hA', ← hsplit, ← key]
        exact ih (upsertTx now A tx') w hwB huB hprop

theorem applyTxs_idem (now : Nat) :
    ∀ (txs : List TxInput) (t : List (String × TxRow)),
      applyTxs now (applyTxs now t txs) txs = applyTxs now t txs := by
  intro txs
  induction txs with
  | nil => intro t; rfl
  | cons tx rest ih =>
    intro t
    rw [applyTxs_cons, applyTxs_cons]
    obtain ⟨c, hc⟩ := alookup_upsertTx_self now t tx
    have hsome : (alookup (applyTxs now (upsertTx now t tx) rest) tx.transaction_id).isSome :=
      alookup_applyTxs_isSome now rest _ _ (by rw [hc]; rfl)
    obtain ⟨w, hw⟩ := Option.isSome_iff_exists.1 hsome
    have huniq : uniqVal tx.transaction_id (applyTxs now (upsertTx now t tx) rest) :=
      uniqVal_applyTxs now rest _ _ (uniqVal_upsertTx_self now t tx)
    have hprop : (∀ q ∈ rest, q.transaction_id ≠ tx.transaction_id) →
        w = mkRow tx w.created_at now := by
      intro hnw
      have := alookup_applyTxs_noWrite now rest (upsertTx now t tx) tx.transaction_id hnw
      rw [hw, hc] at this
      have hwc : w = mkRow tx c now := Option.some_inj.1 this
      rw [hwc, mkRow_created_at]
    have habs := applyTxs_absorb now tx rest _ w hw huniq hprop
    rw [habs, ih (upsertTx now t tx)]

theorem alookup_applyTxs_of_mem (now : Nat) :
    ∀ (txs : List TxInput) (t : List (String × TxRow)) (tx : TxInput),
      tx ∈ txs → (txs.map fun x => x.transaction_id).Nodup →
      ∃ c, alookup (applyTxs now t txs) tx.transaction_id = some (mkRow tx c now) := by
  intro txs
  induction txs with
  | nil => intro t tx hm; exact absurd hm (List.not_mem_nil _)
  | cons h rest ih =>
    intro t tx hm hnd
    rw [List.map_cons, List.nodup_cons] at hnd
    rw [applyTxs_cons]
    rcases List.mem_cons.1 hm with he | hr
    · obtain ⟨c, hc⟩ := alookup_upsertTx_self now t h
      refine ⟨c, ?_⟩
      have hnw : ∀ q ∈ rest, q.transaction_id ≠ h.transaction_id := by
        intro q hq he'
        exact hnd.1 (by rw [← he']; exact List.mem_map_of_mem _ hq)
      rw [he, alookup_applyTxs_noWrite now rest _ _ hnw, hc]
    · exact ih (upsertTx now t h) tx hr hnd.2

theorem transactions_upsertStore (txs : List TxInput) (now : Nat) (s : Store) :
    (upsertTransactionsWithSoftDelete txs now s).transactions = applyTxs now s.transactions txs := rfl

theorem sync_cursors_upsertStore (txs : List TxInput) (now : Nat) (s : Store) :
    (upsertTransactionsWithSoftDelete txs now s).sync_cursors = s.sync_cursors := rfl

theorem items_upsertStore (txs : List TxInput) (now : Nat) (s : Store) :
    (upsertTransactionsWithSoftDelete txs now s).items = s.items := rfl

theorem sync_cursors_softDelete (ids : List String) (now : Nat) (s : Store) :
    (softDeleteTransactions ids now s).sync_cursors = s.sync_cursors := rfl

theorem items_softDelete (ids : List String) (now : Nat) (s : Store) :
    (softDeleteTransactions ids now s).items = s.items := rfl

theorem items_saveCursor (itemId c : String) (now : Nat) (s : Store) :
    (saveCursor itemId c now s).items = s.items := by
  unfold saveCursor
  cases alookup s.sync_cursors itemId <;> rfl

theorem getCursor_saveCursor_self (itemId c : String) (now : Nat) (s : Store) :
    getCursor (saveCursor itemId c now s) itemId = some c := by
  unfold saveCursor getCursor
  cases h : alookup s.sync_cursors itemId with
  | some r =>
    show (alookup (replaceAll s.sync_cursors itemId ⟨c, now⟩) itemId).map _ = _
    rw [alookup_replaceAll_self _ (by rw [h]; rfl)]
    rfl
  | none =>
    show (alookup (s.sync_cursors ++ [(itemId, ⟨c, now⟩)]) itemId).map _ = _
    rw [alookup_append_of_none _ h, alookup_cons, if_pos rfl]
    rfl

theorem getCursor_upsertStore (txs : List TxInput) (now : Nat) (s : Store) (k : String) :
    getCursor (upsertTransactionsWithSoftDelete txs now s) k = getCursor s k := rfl

theorem getCursor_softDelete (ids : List String) (now : Nat) (s : Store) (k : String) :
    getCursor (softDeleteTransactions ids now s) k = getCursor s k := rfl

theorem pageStore_items (itemId : String) (now : Nat) (p : Page) (s : Store) :
    (pageStore itemId now p s).items = s.items := by
  unfold pageStore
  rw [items_saveCursor]
  by_cases hr : p.removed ≠ []
  · rw [if_pos hr, items_softDelete, items_upsertStore]
  · rw [if_neg hr, items_upsertStore]

theorem pageStore_cursor (itemId : String) (now : Nat) (p : Page) (s : Store) :
    getCursor (pageStore itemId now p s) itemId = some p.next_cursor := by
  unfold pageStore
  rw [getCursor_saveCursor_self]

theorem syncLoop_page_eq (itemId : String) (now : Nat) (p : Page) (uF dF : Bool)
    (rest : List FetchResult) (s : Store) :
    syncLoop itemId now (.page p uF dF :: rest) s =
      if (p.added ++ p.modified) ≠ [] ∧ uF = true then s
      else if p.removed ≠ [] ∧ dF = true then
        upsertTransactionsWithSoftDelete (p.added ++ p.modified) now s
      else if p.has_more then syncLoop itemId now rest (pageStore itemId now p s)
      else pageStore itemId now p s := rfl

theorem syncLoop_items (itemId : String) (now : Nat) :
    ∀ (trace : List FetchResult) (s : Store), (syncLoop itemId now trace s).items = s.items := by
  intro trace
  induction trace with
  | nil => intro s; rfl
  | cons fr rest ih =>
    intro s
    cases fr with
    | fetchErr => rfl
    | page p uF dF =>
      rw [syncLoop_page_eq]
      by_cases h1 : (p.added ++ p.modified) ≠ [] ∧ uF = true
      · rw [if_pos h1]
      · rw [if_neg h1]
        by_cases h2 : p.removed ≠ [] ∧ dF = true
        · rw [if_pos h2, items_upsertStore]
        · rw [if_neg h2]
          by_cases h3 : p.has_more
          · rw [if_pos h3, ih, pageStore_items]
          · rw [if_neg h3, pageStore_items]

theorem syncLoop_cursor (itemId : String) (now : Nat) :
    ∀ (trace : List FetchResult) (s : Store),
      getCursor (syncLoop itemId now trace s) itemId
        = appliedCursor (getCursor s itemId) trace := by
  intro trace
  induction trace with
  | nil => intro s; rfl
  | cons fr rest ih =>
    intro s
    cases fr with
    | fetchErr => rfl
    | page p uF dF =>
      rw [syncLoop_page_eq, appliedCursor]
      by_cases h1 : (p.added ++ p.modified) ≠ [] ∧ uF = true
      · rw [if_pos h1, if_pos h1]
      · rw [if_neg h1, if_neg h1]
        by_cases h2 : p.removed ≠ [] ∧ dF = true
        · rw [if_pos h2, if_pos h2, getCursor_upsertStore]
        · rw [if_neg h2, if_neg h2]
          by_cases h3 : p.has_more
          · rw [if_pos h3, if_pos h3, ih, pageStore_cursor]
          · rw [if_neg h3, if_neg h3, pageStore_cursor]

theorem alookup_softDeleteMap (ids : List String) (now : Nat) :
    ∀ (t : List (String × TxRow)) (id : String),
      alookup (t.map fun p => if p.1 ∈ ids ∧ p.2.deleted_at = none
          then (p.1, { p.2 with deleted_at := some now, updated_at := now }) else p) id
      = (alookup t id).map (fun r => if id ∈ ids ∧ r.deleted_at = none
          then { r with deleted_at := some now, updated_at := now } else r) := by
  intro t
  induction t with
  | nil => intro id; rfl
  | cons p rest ih =>
    intro id
    obtain ⟨a, b⟩ := p
    by_cases hc : a ∈ ids ∧ b.deleted_at = none
    · rw [List.map_cons, if_pos hc]
      by_cases ha : a = id
      · subst ha
        rw [alookup_cons, if_pos rfl, alookup_cons, if_pos rfl]
        simp [hc]
      · rw [alookup_cons, if_neg ha, alookup_cons, if_neg ha, ih]
    · rw [List.map_cons, if_neg hc]
      by_cases ha : a = id
      · subst ha
        rw [alookup_cons, if_pos rfl, alookup_cons, if_pos rfl]
        simp [hc]
      · rw [alookup_cons, if_neg ha, alookup_cons, if_neg ha, ih]

theorem alookup_softDelete (ids : List String) (now : Nat) (s : Store) (id : String) :
    alookup (softDeleteTransactions ids now s).transactions id
      = (alookup s.transactions id).map
          (fun r => if id ∈ ids ∧ r.deleted_at = none
                    then { r with deleted_at := some now, updated_at := now } else r) :=
  alookup_softDeleteMap ids now s.transactions id

theorem softDelete_nil (now : Nat) (s : Store) : softDeleteTransactions [] now s = s := by
  show { s with transactions := _ } = s
  have h : ∀ p ∈ s.transactions,
      (if p.1 ∈ ([] : List String) ∧ p.2.deleted_at = none
       then (p.1, { p.2 with deleted_at := some now, updated_at := now }) else p) = p :=
    fun p _ => if_neg (by simp)
  rw [List.map_congr_left h, List.map_id']

theorem handleTransactionSync_of_none {itemId : String} {now : Nat} {trace : List FetchResult}
    {s : Store} (h : getItem s itemId = none) :
    handleTransactionSync itemId now trace s = s := by
  unfold handleTransactionSync; rw [h]

theorem handleTransactionSync_of_some {itemId : String} {now : Nat} {trace : List FetchResult}
    {s : Store} {it : Item} (h : getItem s itemId = some it) :
    handleTransactionSync itemId now trace s = syncLoop itemId now trace s := by
  unfold handleTransactionSync; rw [h]

theorem handleWebhook_ok_none {p : WebhookPayload} {now : Nat} {s : Store}
    (h : getItem s p.item_id = none) :
    handleWebhook (.ok p) now s =
      (⟨200, ⟨some true, some false, some ("Item " ++ p.item_id ++ " not found"), none⟩⟩, s, []) := by
  have he : handleWebhook (.ok p) now s =
      match getItem s p.item_id with
      | none =>
        (⟨200, ⟨some true, some false, some ("Item " ++ p.item_id ++ " not found"), none⟩⟩, s, [])
      | some _ =>
        (⟨200, ⟨some true, some true, none, some (computeAction p)⟩⟩,
         (processWebhookAsync p now s).1, (processWebhookAsync p now s).2) := rfl
  rw [he, h]

theorem handleWebhook_ok_some {p : WebhookPayload} {now : Nat} {s : Store} {it : Item}
    (h : getItem s p.item_id = some it) :
    handleWebhook (.ok p) now s =
      (⟨200, ⟨some true, some true, none, some (computeAction p)⟩⟩,
       (processWebhookAsync p now s).1, (processWebhookAsync p now s).2) := by
  have he : handleWebhook (.ok p) now s =
      match getItem s p.item_id with
      | none =>
        (⟨200, ⟨some true, some false, some ("Item " ++ p.item_id ++ " not found"), none⟩⟩, s, [])
      | some _ =>
        (⟨200, ⟨some true, some true, none, some (computeAction p)⟩⟩,
         (processWebhookAsync p now s).1, (processWebhookAsync p now s).2) := rfl
  rw [he, h]

theorem processWebhookAsync_removed {p : WebhookPayload} {now : Nat} {s : Store} {it : Item}
    (h : getItem s p.item_id = some it)
    (ht : p.webhook_type = "TRANSACTIONS") (hc : p.webhook_code = "TRANSACTIONS_REMOVED") :
    processWebhookAsync p now s
      = (softDeleteTransactions (p.removed_transactions.getD []) now s, []) := by
  unfold processWebhookAsync
  rw [h, if_pos ht]
  unfold handleTransactionsWebhook
  rw [hc]
  rw [if_neg (by decide), if_pos rfl]
  show (if p.removed_transactions.getD [] ≠ []
        then softDeleteTransactions (p.removed_transactions.getD []) now s else s,
        ([] : List QueueMessage)) = _
  by_cases hrm : p.removed_transactions.getD [] ≠ []
  · rw [if_pos hrm]
  · rw [if_neg hrm]
    push_neg at hrm
    rw [hrm, softDelete_nil]

/-- Claim C1: for every account and every page processed by the sync loop
inside `handleTransactionSync`, the stored cursor is updated to that page's
`next_cursor` only after the page's upsert batch and soft-delete batch both
completed; if the sync call, the upsert batch, or the soft-delete batch
throws, the invocation terminates without writing a new cursor value, so
the stored cursor equals the `next_cursor` of the last fully applied page
(the starting value when no page was fully applied) and the next invocation
resumes from it. -/
theorem cursor_advances_only_after_full_page_application
    (itemId : String) (now : Nat) (trace : List FetchResult) (s : Store) :
    getCursor (syncLoop itemId now trace s) itemId
      = appliedCursor (getCursor s itemId) trace :=
  syncLoop_cursor itemId now trace s

/-- Claim C2: with the dispatch of `mockQueue.ts` (independent `setTimeout`
callbacks, no per-item lock), two concurrent `SYNC_TRANSACTIONS` jobs for
the same item can interleave at the worker's await points so that both read
the same starting cursor: the interleaved run ends with cursor `c1` and the
second page never applied, while either sequential order ends with cursor
`c2` and both pages applied — a final state reachable by no serialization
of the two invocations, losing a cursor advance. -/
theorem concurrent_syncs_reach_non_serializable_state :
    getCursor (runSched demoOracle "I" 0 schedBad sys0).st "I" = some "c1" ∧
    getCursor (runSched demoOracle "I" 0 schedSeq12 sys0).st "I" = some "c2" ∧
    getCursor (runSched demoOracle "I" 0 schedSeq21 sys0).st "I" = some "c2" ∧
    (runSched demoOracle "I" 0 schedBad sys0).st
      ≠ (runSched demoOracle "I" 0 schedSeq12 sys0).st ∧
    (runSched demoOracle "I" 0 schedBad sys0).st
      ≠ (runSched demoOracle "I" 0 schedSeq21 sys0).st ∧
    (runSched demoOracle "I" 0 schedBad sys0).proc1.pc = PC.halted ∧
    (runSched demoOracle "I" 0 schedBad sys0).proc2.pc = PC.halted := by
  decide

/-- Claim C3: every record of a page's added/modified batch ends up, after
the upsert batch, stored with `deleted_at = NULL` and all mutable fields
set to the page's values — also when the previously stored row was
tombstoned, so a later upsert always reverses a soft delete. -/
theorem upsert_clears_tombstone_and_refreshes
    (txs : List TxInput) (now : Nat) (s : Store) (tx : TxInput)
    (hmem : tx ∈ txs) (hnd : (txs.map fun x => x.transaction_id).Nodup) :
    ∃ r, alookup (upsertTransactionsWithSoftDelete txs now s).transactions tx.transaction_id
        = some r ∧
      r.deleted_at = none ∧ r.amount = tx.amount ∧ r.currency = tx.currency ∧
      r.date = tx.date ∧ r.name = tx.name ∧ r.merchant_name = tx.merchant_name ∧
      r.pending = tx.pending ∧ r.category = tx.category ∧
      r.payment_channel = tx.payment_channel := by
  obtain ⟨c, hc⟩ := alookup_applyTxs_of_mem now txs s.transactions tx hmem hnd
  refine ⟨mkRow tx c now, ?_, rfl, rfl, rfl, rfl, rfl, rfl, rfl, rfl, rfl⟩
  rw [transactions_upsertStore]
  exact hc

theorem upsert_clears_tombstone_and_refreshes_witness :
    txA ∈ [txA] ∧ ([txA].map fun x => x.transaction_id).Nodup ∧
    (∃ r, alookup (upsertTransactionsWithSoftDelete [txA] 7 store3).transactions
        txA.transaction_id = some r ∧
      r.deleted_at = none ∧ r.amount = txA.amount ∧ r.currency = txA.currency ∧
      r.date = txA.date ∧ r.name = txA.name ∧ r.merchant_name = txA.merchant_name ∧
      r.pending = txA.pending ∧ r.category = txA.category ∧
      r.payment_channel = txA.payment_channel) :=
  ⟨by decide, by decide,
    upsert_clears_tombstone_and_refreshes [txA] 7 store3 txA (by decide) (by decide)⟩

/-- Claim C4: a parsed notification whose `item_id` resolves to no stored
item is acknowledged with status 200, `received = true`, `processed =
false`, while the store is left unchanged and no job is enqueued; likewise
the worker returns without any store write when the job's item is
missing. -/
theorem unknown_account_acknowledged_without_writes
    (p : WebhookPayload) (now : Nat) (trace : List FetchResult) (s : Store)
    (h : getItem s p.item_id = none) :
    (handleWebhook (.ok p) now s).1.statusCode = 200 ∧
    (handleWebhook (.ok p) now s).1.body.received = some true ∧
    (handleWebhook (.ok p) now s).1.body.processed = some false ∧
    (handleWebhook (.ok p) now s).2.1 = s ∧
    (handleWebhook (.ok p) now s).2.2 = [] ∧
    handleTransactionSync p.item_id now trace s = s := by
  rw [handleWebhook_ok_none h, handleTransactionSync_of_none h]
  exact ⟨rfl, rfl, rfl, rfl, rfl, rfl⟩

theorem unknown_account_acknowledged_without_writes_witness :
    getItem store0 payloadX.item_id = none ∧
    ((handleWebhook (.ok payloadX) 0 store0).1.statusCode = 200 ∧
     (handleWebhook (.ok payloadX) 0 store0).1.body.received = some true ∧
     (handleWebhook (.ok payloadX) 0 store0).1.body.processed = some false ∧
     (handleWebhook (.ok payloadX) 0 store0).2.1 = store0 ∧
     (handleWebhook (.ok payloadX) 0 store0).2.2 = [] ∧
     handleTransactionSync payloadX.item_id 0 [] store0 = store0) :=
  ⟨by decide, unknown_account_acknowledged_without_writes payloadX 0 [] store0 (by decide)⟩

/-- Claim C5: a `TRANSACTIONS.TRANSACTIONS_REMOVED` notification for a
known item soft-deletes exactly the listed transaction ids directly — the
resulting store is the one produced by `softDeleteTransactions` on the
listed ids — and enqueues no job on the background queue. -/
theorem removed_webhook_tombstones_directly_without_job
    (p : WebhookPayload) (now : Nat) (s : Store)
    (h : (getItem s p.item_id).isSome)
    (ht : p.webhook_type = "TRANSACTIONS")
    (hc : p.webhook_code = "TRANSACTIONS_REMOVED") :
    (handleWebhook (.ok p) now s).2.2 = [] ∧
    (handleWebhook (.ok p) now s).2.1
      = softDeleteTransactions (p.removed_transactions.getD []) now s := by
  obtain ⟨it, hit⟩ := Option.isSome_iff_exists.1 h
  rw [handleWebhook_ok_some hit, processWebhookAsync_removed hit ht hc]
  exact ⟨rfl, rfl⟩

theorem removed_webhook_tombstones_directly_without_job_witness :
    (getItem store5 payloadRemoved.item_id).isSome ∧
    payloadRemoved.webhook_type = "TRANSACTIONS" ∧
    payloadRemoved.webhook_code = "TRANSACTIONS_REMOVED" ∧
    ((handleWebhook (.ok payloadRemoved) 9 store5).2.2 = [] ∧
     (handleWebhook (.ok payloadRemoved) 9 store5).2.1
       = softDeleteTransactions (payloadRemoved.removed_transactions.getD []) 9 store5) :=
  ⟨by decide, by decide, by decide,
    removed_webhook_tombstones_directly_without_job payloadRemoved 9 store5
      (by decide) (by decide) (by decide)⟩

/-- Claim C6: applying the same added/modified page twice in succession
with `upsertTransactionsWithSoftDelete` yields exactly the store produced
by the first application, for every page and every starting store. -/
theorem upsert_batch_idempotent (txs : List TxInput) (now : Nat) (s : Store) :
    upsertTransactionsWithSoftDelete txs now (upsertTransactionsWithSoftDelete txs now s)
      = upsertTransactionsWithSoftDelete txs now s := by
  show ({ s with transactions := applyTxs now (applyTxs now s.transactions txs) txs } : Store)
      = { s with transactions := applyTxs now s.transactions txs }
  rw [applyTxs_idem]

/-- Claim C7 (amended): a missing body is rejected with status 400 and no
job; a present but unparseable body does not produce a client-error
status — the handler's catch swallows the parse error and acknowledges
with status 200 and `processed = false` — and in both cases the store is
unchanged and no job is enqueued. -/
theorem malformed_body_acknowledged_no_job (now : Nat) (s : Store) :
    (handleWebhook .missing now s).1.statusCode = 400 ∧
    (handleWebhook .missing now s).2.1 = s ∧
    (handleWebhook .missing now s).2.2 = [] ∧
    (handleWebhook .malformed now s).1.statusCode = 200 ∧
    (handleWebhook .malformed now s).1.body.received = some true ∧
    (handleWebhook .malformed now s).1.body.processed = some false ∧
    (handleWebhook .malformed now s).2.1 = s ∧
    (handleWebhook .malformed now s).2.2 = [] :=
  ⟨rfl, rfl, rfl, rfl, rfl, rfl, rfl, rfl⟩

/-- Claim C7 counterexample: a request whose body is present but not
parseable as JSON is answered with status 200 — a success status, not the
client-error (4xx) status the claim asserts. -/
theorem malformed_body_status_not_client_error :
    (handleWebhook .malformed 0 store0).1.statusCode = 200 ∧
    ¬(400 ≤ (handleWebhook .malformed 0 store0).1.statusCode ∧
      (handleWebhook .malformed 0 store0).1.statusCode < 500) := by
  decide

/-- Claim C8: for a `PROCESS_NEW_SUBACCOUNTS` job, the processed set with a
provided id list is exactly the fetched accounts whose id is in the list
when the list is non-empty, and all fetched accounts when the list is
empty or absent. -/
theorem new_subaccounts_processed_set
    (allAccounts : List PlaidAccount) (ids : List String) (a : PlaidAccount) :
    (a ∈ handleAddNewAccounts allAccounts (some ids)
      ↔ a ∈ allAccounts ∧ (ids = [] ∨ a.account_id ∈ ids)) ∧
    handleAddNewAccounts allAccounts none = allAccounts := by
  refine ⟨?_, rfl⟩
  show a ∈ (if ids.length > 0
      then allAccounts.filter (fun x => decide (x.account_id ∈ ids)) else allAccounts) ↔ _
  by_cases h : ids.length > 0
  · rw [if_pos h]
    have hne : ¬(ids = []) := by intro he; rw [he] at h; simp at h
    simp [List.mem_filter, hne]
  · rw [if_neg h]
    have he : ids = [] := by
      cases ids with
      | nil => rfl
      | cons x xs => simp at h
    simp [he]

/-- Claim C9: the sync worker never mutates any item row — after
`handleTransactionSync`, whether it aborted or completed, the `items`
table (including every status) is exactly what it was before. -/
theorem sync_worker_never_mutates_accounts
    (itemId : String) (now : Nat) (trace : List FetchResult) (s : Store) :
    (handleTransactionSync itemId now trace s).items = s.items := by
  cases h : getItem s itemId with
  | none => rw [handleTransactionSync_of_none h]
  | some it => rw [handleTransactionSync_of_some h, syncLoop_items]

/-- Claim C10: `softDeleteTransactions` matches stored rows on
`transaction_id` alone — any listed live row is tombstoned at the current
time regardless of the item owning it, a listed but already tombstoned row
keeps its original `deleted_at`, and unlisted rows are untouched. -/
theorem soft_delete_matches_ids_only
    (ids : List String) (now : Nat) (s : Store) (id : String) (r : TxRow)
    (h : alookup s.transactions id = some r) :
    alookup (softDeleteTransactions ids now s).transactions id
      = some (if id ∈ ids ∧ r.deleted_at = none
              then { r with deleted_at := some now, updated_at := now } else r) := by
  rw [alookup_softDelete, h]
  rfl

theorem soft_delete_matches_ids_only_witness :
    (alookup store10.transactions "tA" = some rowLiveJ ∧
     alookup (softDeleteTransactions ["tA", "tB"] 9 store10).transactions "tA"
       = some (if "tA" ∈ ["tA", "tB"] ∧ rowLiveJ.deleted_at = none
               then { rowLiveJ with deleted_at := some 9, updated_at := 9 } else rowLiveJ)) ∧
    (alookup store10.transactions "tB" = some rowDead ∧
     alookup (softDeleteTransactions ["tA", "tB"] 9 store10).transactions "tB"
       = some (if "tB" ∈ ["tA", "tB"] ∧ rowDead.deleted_at = none
               then { rowDead with deleted_at := some 9, updated_at := 9 } else rowDead)) ∧
    (alookup store10.transactions "tC" = some rowLive ∧
     alookup (softDeleteTransactions ["tA", "tB"] 9 store10).transactions "tC"
       = some (if "tC" ∈ ["tA", "tB"] ∧ rowLive.deleted_at = none
               then { rowLive with deleted_at := some 9, updated_at := 9 } else rowLive)) :=
  ⟨⟨by decide, soft_delete_matches_ids_only ["tA", "tB"] 9 store10 "tA" rowLiveJ (by decide)⟩,
   ⟨by decide, soft_delete_matches_ids_only ["tA", "tB"] 9 store10 "tB" rowDead (by decide)⟩,
   ⟨by decide, soft_delete_matches_ids_only ["tA", "tB"] 9 store10 "tC" rowLive (by decide)⟩⟩

end PlaidSync
